import Mathlib

/-!
Verification of `chamber_scraper.py` (ChamberScraper).

This file gives a shallow embedding of the scraper's core logic:
the HTML page model (an abstraction of the parsed BeautifulSoup tree),
the four field extractors (`extract_phone`, `extract_address`,
`extract_email`, `extract_website`), the business-name and description
heuristics of `scrape_business`, the three-level traversal
(`scrape_chamber_list` → `scrape_category` → `scrape_business`) with the
HTTP fetch modelled as an oracle `String → Except String Node`, and the
CSV serialisation of `save_to_csv`.

Python strings are modelled as Lean `String` (sequences of code points);
the ASCII-oriented character classes of the regular expressions in the
source (`\d`, `\w`, `\s` and the explicit classes) are modelled over
ASCII, which is the character range the scraped pages use.  Machine-level
concerns (network, timing delays, printing) are outside the model; the
`try/except` blocks of the source are modelled by the `Except` result of
the fetch oracle.
-/

namespace ChamberScraper

/-! ## Python string primitives used by the source -/

/-- Python `str.lower()` (ASCII range, as used on `href` values). -/
def pyLower (s : String) : String := String.mk (s.data.map Char.toLower)

/-- Python whitespace for `str.strip()` and the regex class `\s`. -/
def isPySpace (c : Char) : Bool :=
  c = ' ' || c = '\t' || c = '\n' || c = '\r' || c = '\x0b' || c = '\x0c'

/-- Python `str.strip()`: remove leading and trailing whitespace. -/
def pyStrip (s : String) : String :=
  String.mk (((s.data.dropWhile isPySpace).reverse.dropWhile isPySpace).reverse)

/-- Contiguous-sublist test on character lists. -/
def charsInfixOf (needle : List Char) : List Char → Bool
  | [] => needle.isEmpty
  | c :: rest => needle.isPrefixOf (c :: rest) || charsInfixOf needle rest

/-- Python `needle in hay` substring test. -/
def strContains (needle hay : String) : Bool := charsInfixOf needle.data hay.data

/-- Python `s.startswith(p)`. -/
def strStartsWith (s p : String) : Bool := p.data.isPrefixOf s.data

/-- Python slicing `s[:n]` (by code points). -/
def pyTruncate (s : String) (n : Nat) : String := String.mk (s.data.take n)

/-! ## The parsed-page model

A parsed HTML document is a tree of text nodes and elements.  The
document root produced by BeautifulSoup is itself a (tagless) element,
so every text node occurring in a page has a parent element. -/

inductive Node where
  | text (s : String) : Node
  | elem (tag : String) (attrs : List (String × String)) (children : List Node) : Node

/-- Attribute lookup on an element (`tag['href']` / `href=True` tests). -/
def attrOf (name : String) : Node → Option String
  | .text _ => none
  | .elem _ attrs _ => (attrs.find? (fun p => p.1 = name)).map Prod.snd

mutual

/-- The document-order list of text fragments of a node
(BeautifulSoup `_all_strings`). -/
def Node.texts : Node → List String
  | .text s => [s]
  | .elem _ _ cs => Node.textsL cs

/-- Text fragments of a list of sibling nodes, in order. -/
def Node.textsL : List Node → List String
  | [] => []
  | c :: cs => Node.texts c ++ Node.textsL cs

end

/-- BeautifulSoup `.get_text()` / `.text`: concatenation of all text
fragments in document order. -/
def Node.allText (n : Node) : String := String.join (Node.texts n)

/-- BeautifulSoup `.stripped_strings`: each text fragment stripped, with
fragments that strip to the empty string skipped, in document order. -/
def Node.strippedStrings (n : Node) : List String :=
  (n.texts.map pyStrip).filter (fun s => s ≠ "")

/-- BeautifulSoup `.get_text(strip=True)`: concatenation of the stripped
nonempty fragments. -/
def Node.getTextStrip (n : Node) : String := String.join n.strippedStrings

mutual

/-- BeautifulSoup `soup.find(tag)`: the first element with the given tag
name in document (pre-)order. -/
def Node.findTag (tag : String) : Node → Option Node
  | .text _ => none
  | .elem t a cs => if t = tag then some (.elem t a cs) else Node.findTagL tag cs

/-- `findTag` over a list of sibling nodes. -/
def Node.findTagL (tag : String) : List Node → Option Node
  | [] => none
  | c :: cs =>
    match Node.findTag tag c with
    | some r => some r
    | none => Node.findTagL tag cs

end

mutual

/-- BeautifulSoup `soup.find(string=pred).find_parent()`: the immediate
parent element of the first text node (in document order) whose string
satisfies `p`.  A bare text root has no parent and yields `none`. -/
def Node.findStrParent (p : String → Bool) : Node → Option Node
  | .text _ => none
  | .elem t a cs => Node.findStrParentL p (.elem t a cs) cs

/-- `findStrParent` over the children of `parent`. -/
def Node.findStrParentL (p : String → Bool) (parent : Node) : List Node → Option Node
  | [] => none
  | .text s :: cs =>
    if p s then some parent else Node.findStrParentL p parent cs
  | .elem t a cs' :: cs =>
    match Node.findStrParentL p (.elem t a cs') cs' with
    | some r => some r
    | none => Node.findStrParentL p parent cs

end

mutual

/-- BeautifulSoup `soup.find_all('a', href=True)`: all `a` elements that
carry an `href` attribute, in document order, as (href value, link text)
pairs. -/
def Node.hrefLinks : Node → List (String × String)
  | .text _ => []
  | .elem t attrs cs =>
    (if t = "a" then
      match (attrs.find? (fun p => p.1 = "href")).map Prod.snd with
      | some h => [(h, String.join (Node.textsL cs))]
      | none => []
    else []) ++ Node.hrefLinksL cs

/-- `hrefLinks` over a list of sibling nodes. -/
def Node.hrefLinksL : List Node → List (String × String)
  | [] => []
  | c :: cs => Node.hrefLinks c ++ Node.hrefLinksL cs

end

/-! ## Website extraction (`ChamberScraper.extract_website`) -/

/-- The literal skip list of `extract_website`, tested against the
lowercased href. -/
def denylistTerms : List String :=
  ["facebook.com", "twitter.com", "instagram.com", "linkedin.com",
   "mailto:", "tel:", "business.", "chambermaster.blob"]

/-- The operator's own chamber root domains, tested against the href
verbatim inside the scheme branch. -/
def chamberDomains : List String :=
  ["goschamber.com", "clintonchamber.org", "easternchamberct.org",
   "mysticchamber.org", "crvchamber.org"]

/-- `any(x in href.lower() for x in [...])` of the source. -/
def denylistHit (href : String) : Bool :=
  denylistTerms.any (fun t => strContains t (pyLower href))

/-- `any(x in href for x in [...])` over the chamber root domains. -/
def chamberHit (href : String) : Bool :=
  chamberDomains.any (fun t => strContains t href)

/-- The loop body of `extract_website` over the hrefs of the page's
links, in document order: skip denylisted targets, return the first
remaining target that starts with `http` and avoids the chamber
domains. -/
def extract_website_links : List String → String
  | [] => ""
  | href :: rest =>
    if denylistHit href then extract_website_links rest
    else if strStartsWith href "http" && !chamberHit href then href
    else extract_website_links rest

/-- `ChamberScraper.extract_website`. -/
def extract_website (soup : Node) : String :=
  extract_website_links ((Node.hrefLinks soup).map Prod.fst)

/-- A link target qualifies when it passes the denylist and the scheme
check and avoids the chamber root domains (the source's conditions for
returning it). -/
def qualifies (href : String) : Bool :=
  !denylistHit href && (strStartsWith href "http" && !chamberHit href)

/-- The claim's reading of "begins with an http/https scheme". -/
def beginsHttpScheme (s : String) : Bool :=
  strStartsWith s "http:" || strStartsWith s "https:"

/-! ## Phone extraction (`ChamberScraper.extract_phone`)

The source searches `soup.get_text()` with the pattern
`\(?\d{3}\)?[-.\s]?\d{3}[-.\s]?\d{4}`.  The pattern's only choice points
are its four optional single-character pieces, so a match attempt at a
fixed position explores exactly the sixteen optional/omitted
combinations; a backtracking engine explores them in the greedy
depth-first order, option taken before option skipped, leftmost choice
point outermost. -/

/-- The phone regex separator class `[-.\s]`. -/
def isSepChar (c : Char) : Bool := c = '-' || c = '.' || isPySpace c

/-- `\d{n}`: a run of `n` digit predicates. -/
def digitPreds (n : Nat) : List (Char → Bool) := List.replicate n Char.isDigit

/-- An optional single-character piece, present or absent. -/
def optP (b : Bool) (p : Char → Bool) : List (Char → Bool) := if b then [p] else []

/-- One fully resolved alternative of the phone pattern:
`b1` = leading `(` present, `b2` = trailing `)` present, `b3`/`b4` =
separators present. -/
def phoneBranch (b1 b2 b3 b4 : Bool) : List (Char → Bool) :=
  optP b1 (fun c => c = '(') ++ digitPreds 3 ++ optP b2 (fun c => c = ')') ++
    optP b3 isSepChar ++ digitPreds 3 ++ optP b4 isSepChar ++ digitPreds 4

/-- All sixteen alternatives of the phone pattern, in the backtracking
engine's greedy exploration order. -/
def phoneBranches : List (List (Char → Bool)) :=
  [true, false].flatMap fun b1 =>
    [true, false].flatMap fun b2 =>
      [true, false].flatMap fun b3 =>
        [true, false].map fun b4 => phoneBranch b1 b2 b3 b4

/-- Match a list of character predicates against a prefix of the input. -/
def matchPreds : List (Char → Bool) → List Char → Bool
  | [], _ => true
  | _ :: _, [] => false
  | p :: ps, c :: cs => p c && matchPreds ps cs

/-- `re.match` of the phone pattern at a fixed position: the length
consumed by the first alternative (in greedy order) that fits. -/
def phoneMatchAt (cs : List Char) : Option Nat :=
  (phoneBranches.find? (fun b => matchPreds b cs)).map List.length

/-- Declaratively: `s`, in its entirety, matches the phone pattern. -/
def phoneFull (s : List Char) : Bool :=
  phoneBranches.any (fun b => b.length == s.length && matchPreds b s)

/-- `re.search`: try a match attempt at each position from the left and
return the first (leftmost) matched substring. -/
def reSearch (m : List Char → Option Nat) : List Char → Option (List Char)
  | [] =>
    match m [] with
    | some n => some (List.take n [])
    | none => none
  | c :: rest =>
    match m (c :: rest) with
    | some n => some (List.take n (c :: rest))
    | none => reSearch m rest

/-- `match.group(0) if match else ""` over a `re.search` result. -/
def extractRes (m : List Char → Option Nat) (t : List Char) : String :=
  match reSearch m t with
  | some mtext => String.mk mtext
  | none => ""

/-- `ChamberScraper.extract_phone`. -/
def extract_phone (soup : Node) : String :=
  extractRes phoneMatchAt (Node.allText soup).data

/-! ## Email extraction (`ChamberScraper.extract_email`)

The source searches `soup.get_text()` with
`[a-zA-Z0-9._%+-]+@[a-zA-Z0-9.-]+\.[a-zA-Z]{2,}`.  At a fixed position
the greedy engine's behaviour collapses to: the local part must be the
maximal run of local characters (`@` is not a local character, so a
shorter run can never be followed by `@`); the domain run before the
required dot is tried from the maximal run of domain characters
downwards; the final label takes every following letter and needs at
least two. -/

/-- The regex class `[a-zA-Z0-9._%+-]` (email local part). -/
def isLocalChar (c : Char) : Bool :=
  c.isAlpha || c.isDigit || c = '.' || c = '_' || c = '%' || c = '+' || c = '-'

/-- The regex class `[a-zA-Z0-9.-]` (email domain). -/
def isDomChar (c : Char) : Bool := c.isAlpha || c.isDigit || c = '.' || c = '-'

/-- Backtracking over the domain-run length: try `[a-zA-Z0-9.-]+`
consuming `j, j-1, …, 1` characters of `rest`; each attempt needs a `.`
next and at least two letters after it, the final label being the
maximal letter run.  Returns the total length consumed inside `rest`. -/
def emailDescend (rest : List Char) : Nat → Option Nat
  | 0 => none
  | k + 1 =>
    if rest[k + 1]? = some '.' then
      if 2 ≤ ((rest.drop (k + 2)).takeWhile Char.isAlpha).length then
        some (k + 2 + ((rest.drop (k + 2)).takeWhile Char.isAlpha).length)
      else emailDescend rest k
    else emailDescend rest k

/-- After the maximal local-part run: the input must continue with `@`,
and the domain backtracking starts from the maximal domain run. -/
def emailMatchTail (loclen : Nat) : List Char → Option Nat
  | [] => none
  | c :: rest =>
    if c = '@' then
      (emailDescend rest ((rest.takeWhile isDomChar).length)).map
        (fun k => loclen + 1 + k)
    else none

/-- `re.match` of the email pattern at a fixed position: the length the
greedy backtracking engine consumes, if the attempt succeeds.  The local
part is forced to the maximal run of local characters, since `@` is not
a local character and no shorter run can be followed by `@`. -/
def emailMatchAt (cs : List Char) : Option Nat :=
  if (cs.takeWhile isLocalChar).length = 0 then none
  else
    emailMatchTail (cs.takeWhile isLocalChar).length
      (cs.drop (cs.takeWhile isLocalChar).length)

/-- Declaratively: `s`, in its entirety, is of the local-part `@` domain
shape with a final label of at least two letters: a nonempty run of
local characters, `@`, a nonempty run of domain characters, `.`, and at
least two letters to the end. -/
def emailFull (s : List Char) : Bool :=
  (List.range s.length).any fun i =>
    decide (0 < i) && (s[i]? == some '@') && (s.take i).all isLocalChar &&
      ((List.range (s.drop (i + 1)).length).any fun k =>
        decide (0 < k) && ((s.drop (i + 1))[k]? == some '.') &&
          ((s.drop (i + 1)).take k).all isDomChar &&
          ((s.drop (i + 1)).drop (k + 1)).all Char.isAlpha &&
          decide (2 ≤ ((s.drop (i + 1)).drop (k + 1)).length))

/-- `ChamberScraper.extract_email`. -/
def extract_email (soup : Node) : String :=
  extractRes emailMatchAt (Node.allText soup).data

/-! ## Address extraction (`ChamberScraper.extract_address`)

The source iterates `soup.stripped_strings` and returns the first
fragment on which `re.search(r'\d+\s+\w+.*,\s*CT\s*\d{5}', text)`
succeeds.  Only the existence of a match matters, so the pattern is
embedded as a nondeterministic acceptor with exists-semantics. -/

/-- The regex class `\w` (ASCII range). -/
def isWordChar (c : Char) : Bool := c.isAlpha || c.isDigit || c = '_'

/-- `p*` before continuation `k`: zero or more characters of class `p`. -/
def starP (p : Char → Bool) (k : List Char → Bool) : List Char → Bool
  | [] => k []
  | c :: cs => k (c :: cs) || (p c && starP p k cs)

/-- `p+` before continuation `k`. -/
def plusP (p : Char → Bool) (k : List Char → Bool) : List Char → Bool
  | [] => false
  | c :: cs => p c && starP p k cs

/-- A literal character before continuation `k`. -/
def litP (a : Char) (k : List Char → Bool) : List Char → Bool
  | [] => false
  | c :: cs => c = a && k cs

/-- A fixed sequence of character classes before continuation `k`. -/
def exactP : List (Char → Bool) → (List Char → Bool) → List Char → Bool
  | [], k, cs => k cs
  | _ :: _, _, [] => false
  | p :: ps, k, c :: cs => p c && exactP ps k cs

/-- The body of the address pattern `\d+\s+\w+.*,\s*CT\s*\d{5}`
anchored at the current position (`.` excludes newline). -/
def addrCore : List Char → Bool :=
  plusP Char.isDigit (plusP isPySpace (plusP isWordChar
    (starP (fun c => c ≠ '\n') (litP ','
      (starP isPySpace (litP 'C' (litP 'T'
        (starP isPySpace (exactP (digitPreds 5) (fun _ => true))))))))))

/-- `re.search` of the address pattern: a match exists at some
position. -/
def addrAny : List Char → Bool
  | [] => addrCore []
  | c :: cs => addrCore (c :: cs) || addrAny cs

/-- The fragment test of `extract_address`. -/
def addrSearch (s : String) : Bool := addrAny s.data

/-- The loop of `extract_address`: first matching fragment, else `""`. -/
def addrLoop : List String → String
  | [] => ""
  | t :: rest => if addrSearch t then t else addrLoop rest

/-- `ChamberScraper.extract_address`. -/
def extract_address (soup : Node) : String := addrLoop (Node.strippedStrings soup)

/-! ## Business name and description (`ChamberScraper.scrape_business`) -/

/-- The name heuristic of `scrape_business`: the first `h1`'s stripped
text (a found tag is always truthy in BeautifulSoup, even when its text
strips to the empty string); otherwise the `title`'s stripped text;
otherwise the literal `"Unknown"`. -/
def extract_name (soup : Node) : String :=
  match Node.findTag "h1" soup with
  | some h1 => pyStrip (Node.allText h1)
  | none =>
    match Node.findTag "title" soup with
    | some t => pyStrip (Node.allText t)
    | none => "Unknown"

/-- The text-node test of `soup.find(string=re.compile(r'About Us',
re.IGNORECASE))`: the string contains "about us" case-insensitively. -/
def aboutPred (s : String) : Bool := strContains "about us" (pyLower s)

/-- The raw description of `scrape_business`: `get_text(strip=True)` of
the parent of the first "About Us" text node, else `""`. -/
def rawDescription (soup : Node) : String :=
  match Node.findStrParent aboutPred soup with
  | some parent => Node.getTextStrip parent
  | none => ""

/-- The stored description: `description[:200] if description else ""`. -/
def description_stored (soup : Node) : String :=
  if rawDescription soup ≠ "" then pyTruncate (rawDescription soup) 200 else ""

/-- The claim's reading of the description ("the trimmed visible text of
the nearest structural ancestor, truncated to 200 characters"), stated
from the spec's words for comparison with the source's behaviour. -/
def specDescription (soup : Node) : String :=
  match Node.findStrParent aboutPred soup with
  | some parent => pyTruncate (pyStrip (Node.allText parent)) 200
  | none => ""

/-! ## The record and the traversal -/

/-- The dictionary appended to `self.businesses` by `scrape_business`. -/
structure BusinessData where
  business_name : String
  chamber : String
  category : String
  phone : String
  address : String
  email : String
  website : String
  has_website : String
  description : String
  chamber_url : String
  scraped_date : String
deriving DecidableEq

/-- Assembling the record from a successfully fetched and parsed
business page (`scrape_business`, success path). -/
def mkBusinessData (soup : Node) (business_url chamber_name category_name today : String) :
    BusinessData where
  business_name := extract_name soup
  chamber := chamber_name
  category := category_name
  phone := extract_phone soup
  address := extract_address soup
  email := extract_email soup
  website := extract_website soup
  has_website := if extract_website soup ≠ "" then "Yes" else "No"
  description := description_stored soup
  chamber_url := business_url
  scraped_date := today

/-- `ChamberScraper.scrape_business`: fetch and parse the page (the
oracle `fetch` returns `.error` when the request or the parse raises);
on success append one record, on failure leave the collection
unchanged. -/
def scrape_business (fetch : String → Except String Node)
    (today business_url chamber_name category_name : String)
    (businesses : List BusinessData) : List BusinessData :=
  match fetch business_url with
  | .error _ => businesses
  | .ok soup => businesses ++ [mkBusinessData soup business_url chamber_name category_name today]

/-- The business-link filter of `scrape_category`:
`find_all('a', href=re.compile(r'/list/member/'))`. -/
def businessLinks (soup : Node) : List (String × String) :=
  (Node.hrefLinks soup).filter (fun l => strContains "/list/member/" l.1)

/-- The category-link filter of `scrape_chamber_list`:
`find_all('a', href=re.compile(r'/list/ql/'))`. -/
def categoryLinks (soup : Node) : List (String × String) :=
  (Node.hrefLinks soup).filter (fun l => strContains "/list/ql/" l.1)

/-- The per-link loop of `scrape_category`: invoke `scrape_business` on
each discovered business link in order (`resolve` is the `urljoin`
collaborator). -/
def processBusinessLinks (fetch : String → Except String Node)
    (resolve : String → String → String)
    (today category_url chamber_name category_name : String) :
    List (String × String) → List BusinessData → List BusinessData
  | [], businesses => businesses
  | l :: rest, businesses =>
    processBusinessLinks fetch resolve today category_url chamber_name category_name rest
      (scrape_business fetch today (resolve category_url l.1) chamber_name category_name businesses)

/-- `ChamberScraper.scrape_category`. -/
def scrape_category (fetch : String → Except String Node)
    (resolve : String → String → String)
    (today category_url chamber_name category_name : String)
    (businesses : List BusinessData) : List BusinessData :=
  match fetch category_url with
  | .error _ => businesses
  | .ok soup =>
    processBusinessLinks fetch resolve today category_url chamber_name category_name
      (businessLinks soup) businesses

/-- The per-link loop of `scrape_chamber_list`: invoke `scrape_category`
on each discovered category link, the category name being the link's
stripped text. -/
def processCategoryLinks (fetch : String → Except String Node)
    (resolve : String → String → String)
    (today base_url chamber_name : String) :
    List (String × String) → List BusinessData → List BusinessData
  | [], businesses => businesses
  | l :: rest, businesses =>
    processCategoryLinks fetch resolve today base_url chamber_name rest
      (scrape_category fetch resolve today (resolve base_url l.1) chamber_name (pyStrip l.2)
        businesses)

/-- `ChamberScraper.scrape_chamber_list`. -/
def scrape_chamber_list (fetch : String → Except String Node)
    (resolve : String → String → String)
    (today base_url chamber_name : String)
    (businesses : List BusinessData) : List BusinessData :=
  match fetch base_url with
  | .error _ => businesses
  | .ok soup =>
    processCategoryLinks fetch resolve today base_url chamber_name (categoryLinks soup) businesses

/-- The records contributed by one business link of a category page
(zero on failure, one on success). -/
def businessRecordsOf (fetch : String → Except String Node)
    (resolve : String → String → String)
    (today category_url chamber_name category_name : String)
    (l : String × String) : List BusinessData :=
  match fetch (resolve category_url l.1) with
  | .error _ => []
  | .ok soup =>
    [mkBusinessData soup (resolve category_url l.1) chamber_name category_name today]

/-! ## CSV output (`ChamberScraper.save_to_csv`) -/

/-- The fixed CSV column order. -/
def fieldnames : List String :=
  ["business_name", "chamber", "category", "phone", "address",
   "email", "website", "has_website", "description",
   "chamber_url", "scraped_date"]

/-- Dictionary lookup of a record field by column name (the access the
`csv.DictWriter` performs per field). -/
def fieldOf (b : BusinessData) (f : String) : String :=
  if f = "business_name" then b.business_name
  else if f = "chamber" then b.chamber
  else if f = "category" then b.category
  else if f = "phone" then b.phone
  else if f = "address" then b.address
  else if f = "email" then b.email
  else if f = "website" then b.website
  else if f = "has_website" then b.has_website
  else if f = "description" then b.description
  else if f = "chamber_url" then b.chamber_url
  else if f = "scraped_date" then b.scraped_date
  else ""

/-- The CSV row of one record, in the fixed column order. -/
def rowOf (b : BusinessData) : List String := fieldnames.map (fieldOf b)

/-- `ChamberScraper.save_to_csv`: `none` when the collection is empty
(the early return happens before the file is opened, so no file is
created); otherwise the written file as a header row followed by one row
per record in append order. -/
def save_to_csv (businesses : List BusinessData) : Option (List (List String)) :=
  if businesses.isEmpty then none
  else some (fieldnames :: businesses.map rowOf)

/-- The records contributed by one category link of a chamber root page:
nothing on a failed category fetch, otherwise the records of that
category's business links in order. -/
def categoryRecordsOf (fetch : String → Except String Node)
    (resolve : String → String → String)
    (today base_url chamber_name : String) (l : String × String) : List BusinessData :=
  match fetch (resolve base_url l.1) with
  | .error _ => []
  | .ok soup =>
    (businessLinks soup).flatMap
      (businessRecordsOf fetch resolve today (resolve base_url l.1) chamber_name (pyStrip l.2))

/-! ## Traversal structure -/

/-- The category-page loop appends exactly the records of its links, in
order: each link contributes its own records independently of the
accumulated collection. -/
theorem processBusinessLinks_eq_flatMap (fetch : String → Except String Node)
    (resolve : String → String → String) (today curl ch cat : String) :
    ∀ (links : List (String × String)) (businesses : List BusinessData),
      processBusinessLinks fetch resolve today curl ch cat links businesses =
        businesses ++ links.flatMap (businessRecordsOf fetch resolve today curl ch cat) := by
  intro links
  induction links with
  | nil => intro businesses; simp [processBusinessLinks]
  | cons l rest ih =>
    intro businesses
    simp only [processBusinessLinks]
    rw [ih]
    simp only [List.flatMap_cons]
    unfold scrape_business businessRecordsOf
    cases hf : fetch (resolve curl l.1) with
    | error e => simp
    | ok soup => simp

/-- A successfully fetched category page appends exactly the records of
its business links. -/
theorem scrape_category_ok (fetch : String → Except String Node)
    (resolve : String → String → String) (today curl ch cat : String)
    (businesses : List BusinessData) (soup : Node) (hf : fetch curl = .ok soup) :
    scrape_category fetch resolve today curl ch cat businesses =
      businesses ++ (businessLinks soup).flatMap
        (businessRecordsOf fetch resolve today curl ch cat) := by
  unfold scrape_category
  rw [hf]
  exact processBusinessLinks_eq_flatMap fetch resolve today curl ch cat _ businesses

/-- The chamber-root loop appends exactly the records of its category
links, in order. -/
theorem processCategoryLinks_eq_flatMap (fetch : String → Except String Node)
    (resolve : String → String → String) (today base ch : String) :
    ∀ (links : List (String × String)) (businesses : List BusinessData),
      processCategoryLinks fetch resolve today base ch links businesses =
        businesses ++ links.flatMap (categoryRecordsOf fetch resolve today base ch) := by
  intro links
  induction links with
  | nil => intro businesses; simp [processCategoryLinks]
  | cons l rest ih =>
    intro businesses
    simp only [processCategoryLinks]
    rw [ih]
    simp only [List.flatMap_cons]
    unfold categoryRecordsOf
    cases hf : fetch (resolve base l.1) with
    | error e =>
      unfold scrape_category
      rw [hf]
      simp
    | ok soup =>
      rw [scrape_category_ok fetch resolve today (resolve base l.1) ch (pyStrip l.2)
        businesses soup hf]
      simp

/-! ## Website extractor: structure of the loop -/

/-- Unfolding of the qualification test into its three conditions. -/
theorem qualifies_iff (h : String) :
    qualifies h = true ↔
      (denylistHit h = false ∧ strStartsWith h "http" = true ∧ chamberHit h = false) := by
  unfold qualifies
  cases hdl : denylistHit h <;> cases hss : strStartsWith h "http" <;>
    cases hch : chamberHit h <;> simp

/-- The loop of `extract_website` returns either the empty string or a
qualifying member of the link list. -/
theorem extract_website_links_cases (hs : List String) :
    extract_website_links hs = "" ∨
      (qualifies (extract_website_links hs) = true ∧ extract_website_links hs ∈ hs) := by
  induction hs with
  | nil => exact Or.inl rfl
  | cons h rest ih =>
    by_cases hd : denylistHit h = true
    · have e : extract_website_links (h :: rest) = extract_website_links rest := by
        simp [extract_website_links, hd]
      rw [e]
      rcases ih with h1 | ⟨h1, h2⟩
      · exact Or.inl h1
      · exact Or.inr ⟨h1, List.mem_cons_of_mem _ h2⟩
    · have hd' : denylistHit h = false := by revert hd; cases denylistHit h <;> simp
      by_cases hs2 : (strStartsWith h "http" && !chamberHit h) = true
      · have e : extract_website_links (h :: rest) = h := by
          simp [extract_website_links, hd', hs2]
        rw [e]
        rw [Bool.and_eq_true] at hs2
        have hch' : chamberHit h = false := by
          rcases hs2 with ⟨_, hch⟩
          revert hch; cases chamberHit h <;> simp
        exact Or.inr ⟨(qualifies_iff h).2 ⟨hd', hs2.1, hch'⟩, List.mem_cons_self h rest⟩
      · have e : extract_website_links (h :: rest) = extract_website_links rest := by
          simp [extract_website_links, hd', hs2]
        rw [e]
        rcases ih with h1 | ⟨h1, h2⟩
        · exact Or.inl h1
        · exact Or.inr ⟨h1, List.mem_cons_of_mem _ h2⟩

/-- The loop of `extract_website` is the head of the qualifying links,
defaulting to the empty string. -/
theorem extract_website_links_eq_filter_head (hs : List String) :
    extract_website_links hs = ((hs.filter qualifies).head?).getD "" := by
  induction hs with
  | nil => rfl
  | cons h rest ih =>
    by_cases hd : denylistHit h = true
    · have hq : qualifies h = false := by simp [qualifies, hd]
      simp [extract_website_links, hd, List.filter_cons, hq, ih]
    · have hd' : denylistHit h = false := by revert hd; cases denylistHit h <;> simp
      by_cases hs2 : (strStartsWith h "http" && !chamberHit h) = true
      · have hq : qualifies h = true := by
          simp only [qualifies, hd']
          simpa using hs2
        simp [extract_website_links, hd', hs2, List.filter_cons, hq]
      · have hq : qualifies h = false := by
          simp only [qualifies, hd']
          revert hs2
          cases (strStartsWith h "http" && !chamberHit h) <;> simp
        simp [extract_website_links, hd', hs2, List.filter_cons, hq, ih]

/-! ## Claim theorems C1 and C2 -/

/-- A page whose only link target is `httpfoo.example/x`. -/
def c1Page : Node := .elem "html" [] [.elem "a" [("href", "httpfoo.example/x")] []]

/-- C1, counterexample: on a page whose single hyperlink target is
`httpfoo.example/x`, the extractor returns that target, which is neither
empty nor a target beginning with an http/https scheme — the source only
checks `href.startswith('http')`, which the bare string `httpfoo…`
passes. -/
theorem c1_counterexample :
    extract_website c1Page = "httpfoo.example/x" ∧
      extract_website c1Page ≠ "" ∧
      beginsHttpScheme (extract_website c1Page) = false := by
  decide

/-- C1 (amended): for every parsed page, the website extractor returns
either the empty string or the target of one of the page's hyperlinks
that begins with the literal prefix `http` (not necessarily a complete
http/https scheme), whose lowercased target contains none of the
social-media / `mailto:` / `tel:` / directory-platform denylist entries,
and which does not contain (case-sensitively) any of the operator's
chamber root domains; the denylist is checked before the scheme check. -/
theorem c1_amended (soup : Node) :
    extract_website soup = "" ∨
      (strStartsWith (extract_website soup) "http" = true ∧
        denylistHit (extract_website soup) = false ∧
        chamberHit (extract_website soup) = false ∧
        extract_website soup ∈ (Node.hrefLinks soup).map Prod.fst) := by
  unfold extract_website
  rcases extract_website_links_cases ((Node.hrefLinks soup).map Prod.fst) with h | ⟨hq, hm⟩
  · exact Or.inl h
  · have hq' := (qualifies_iff _).1 hq
    exact Or.inr ⟨hq'.2.1, hq'.1, hq'.2.2, hm⟩

/-- C2: the extractor scans the link targets in document order; if no
target qualifies (passes the denylist, starts with `http`, avoids the
chamber domains) the result is empty, if exactly one qualifies it is
returned, and if several qualify the earliest in document order is
returned. -/
theorem c2_first_qualifying (hs : List String) :
    (hs.filter qualifies = [] → extract_website_links hs = "") ∧
    (∀ h, hs.filter qualifies = [h] → extract_website_links hs = h) ∧
    (∀ h t, hs.filter qualifies = h :: t → extract_website_links hs = h) := by
  refine ⟨fun h => ?_, fun h hf => ?_, fun h t hf => ?_⟩
  · rw [extract_website_links_eq_filter_head, h]; rfl
  · rw [extract_website_links_eq_filter_head, hf]; rfl
  · rw [extract_website_links_eq_filter_head, hf]; rfl

/-- C2, witness: the spec's own scenario — targets `facebook.com/x`,
`tel:123`, `https://example-biz.com` — has exactly one qualifying link,
which is returned. -/
theorem c2_first_qualifying_witness :
    extract_website_links ["facebook.com/x", "tel:123", "https://example-biz.com"] =
      "https://example-biz.com" :=
  (c2_first_qualifying ["facebook.com/x", "tel:123", "https://example-biz.com"]).2.1
    "https://example-biz.com" (by decide)

/-! ## Claim theorem C4 -/

/-- C4: in every record assembled by the business page handler,
`has_website` is `Yes` exactly when `website` is nonempty (and `No`
exactly when it is empty). -/
theorem c4_has_website_iff (soup : Node) (url ch cat today : String) :
    ((mkBusinessData soup url ch cat today).has_website = "Yes" ↔
      (mkBusinessData soup url ch cat today).website ≠ "") ∧
    ((mkBusinessData soup url ch cat today).has_website = "No" ↔
      (mkBusinessData soup url ch cat today).website = "") := by
  by_cases hw : extract_website soup = "" <;>
    simp [mkBusinessData, hw]

/-! ## Claim theorem C9 -/

/-- C9: saving an empty record collection creates no output at all
(`none`, the early return fires before the file is opened); a nonempty
collection yields a header row followed by one row per record in append
order, each row listing the fields in the fixed column order. -/
theorem c9_save_to_csv (bs : List BusinessData) :
    (bs = [] → save_to_csv bs = none) ∧
    (bs ≠ [] → save_to_csv bs = some (fieldnames :: bs.map rowOf) ∧
      (bs.map rowOf).length = bs.length ∧
      ∀ b, rowOf b = fieldnames.map (fieldOf b)) := by
  constructor
  · intro h; subst h; rfl
  · intro h
    refine ⟨?_, by simp, fun b => rfl⟩
    simp [save_to_csv, h]

/-- A sample record for the CSV witnesses. -/
def sampleRecord : BusinessData :=
  ⟨"Acme", "Ch", "Cat", "(203) 555-1234", "12 Main St, CT 06475",
   "a@b.co", "https://acme.example", "Yes", "d", "https://u", "2025-10-12"⟩

/-- C9, witness: the empty collection saves to nothing; a one-record
collection saves to a header row plus that record's row. -/
theorem c9_save_to_csv_witness :
    save_to_csv [] = none ∧
      save_to_csv [sampleRecord] = some (fieldnames :: [sampleRecord].map rowOf) :=
  ⟨(c9_save_to_csv []).1 rfl, ((c9_save_to_csv [sampleRecord]).2 (by decide)).1⟩

/-! ## Claim theorem C10 -/

/-- C10: a found `h1` always supplies the name (BeautifulSoup tags are
truthy even when empty, so an `h1` whose text strips to nothing yields
the empty name); the `title` fallback is consulted only when no `h1`
exists; the literal `Unknown` appears only when neither exists. -/
theorem c10_name_fallback (soup : Node) :
    (∀ h1, Node.findTag "h1" soup = some h1 →
      extract_name soup = pyStrip (Node.allText h1)) ∧
    (Node.findTag "h1" soup = none → ∀ t, Node.findTag "title" soup = some t →
      extract_name soup = pyStrip (Node.allText t)) ∧
    (Node.findTag "h1" soup = none → Node.findTag "title" soup = none →
      extract_name soup = "Unknown") := by
  refine ⟨fun h1 hh => ?_, fun hh t ht => ?_, fun hh ht => ?_⟩ <;>
    simp [extract_name, hh]
  · rw [ht]
  · rw [ht]

/-- A page whose first `h1` has whitespace-only text next to a nonempty
`title`. -/
def c10Page : Node :=
  .elem "html" [] [.elem "h1" [] [.text "  "], .elem "title" [] [.text "T"]]

/-- C10, witness: with a whitespace-only `h1` and a nonempty `title`
present, the emitted name is the empty string, not the title. -/
theorem c10_name_fallback_witness : extract_name c10Page = "" :=
  ((c10_name_fallback c10Page).1 (.elem "h1" [] [.text "  "]) (by rfl)).trans (by decide)

/-! ## Leftmost-match structure of `re.search` -/

/-- One-step unfolding of `reSearch` on the empty input. -/
theorem reSearch_nil (m : List Char → Option Nat) :
    reSearch m [] =
      (match m [] with
        | some n => some (List.take n ([] : List Char))
        | none => none) := rfl

/-- One-step unfolding of `reSearch` on a nonempty input. -/
theorem reSearch_cons (m : List Char → Option Nat) (c : Char) (rest : List Char) :
    reSearch m (c :: rest) =
      (match m (c :: rest) with
        | some n => some (List.take n (c :: rest))
        | none => reSearch m rest) := rfl

/-- A failed search means the match attempt fails at every position. -/
theorem reSearch_eq_none (m : List Char → Option Nat) :
    ∀ cs, reSearch m cs = none → ∀ i, m (cs.drop i) = none := by
  intro cs
  induction cs with
  | nil =>
    intro h i
    rw [List.drop_nil]
    rw [reSearch_nil] at h
    revert h
    cases hm : m [] <;> simp
  | cons c rest ih =>
    intro h i
    rw [reSearch_cons] at h
    have hm : m (c :: rest) = none := by
      revert h; cases hmm : m (c :: rest) <;> simp
    rw [hm] at h
    have hrest : reSearch m rest = none := h
    cases i with
    | zero => exact hm
    | succ j => exact ih hrest j

/-- A successful search returns the attempt's match at the leftmost
position where an attempt succeeds. -/
theorem reSearch_eq_some (m : List Char → Option Nat) :
    ∀ cs r, reSearch m cs = some r →
      ∃ i n, m (cs.drop i) = some n ∧ r = (cs.drop i).take n ∧
        ∀ j, j < i → m (cs.drop j) = none := by
  intro cs
  induction cs with
  | nil =>
    intro r h
    rw [reSearch_nil] at h
    cases hm : m [] with
    | none => rw [hm] at h; exact absurd h (by simp)
    | some n =>
      rw [hm] at h
      exact ⟨0, n, by simpa using hm, by simpa using (Option.some.inj h).symm,
        fun j hj => absurd hj (Nat.not_lt_zero j)⟩
  | cons c rest ih =>
    intro r h
    rw [reSearch_cons] at h
    cases hm : m (c :: rest) with
    | some n =>
      rw [hm] at h
      exact ⟨0, n, hm, (Option.some.inj h).symm,
        fun j hj => absurd hj (Nat.not_lt_zero j)⟩
    | none =>
      rw [hm] at h
      obtain ⟨i, n, h1, h2, h3⟩ := ih r h
      refine ⟨i + 1, n, h1, h2, fun j hj => ?_⟩
      cases j with
      | zero => exact hm
      | succ k => exact h3 k (Nat.lt_of_succ_lt_succ hj)

/-! ## The phone matcher against its declarative shape -/

/-- A branch that matches consumes no more than the input's length. -/
theorem matchPreds_le_length :
    ∀ (b : List (Char → Bool)) (cs : List Char),
      matchPreds b cs = true → b.length ≤ cs.length := by
  intro b
  induction b with
  | nil => intro cs _; exact Nat.zero_le _
  | cons p ps ih =>
    intro cs h
    cases cs with
    | nil => exact absurd h (by simp [matchPreds])
    | cons c cs' =>
      simp only [matchPreds, Bool.and_eq_true] at h
      simpa using Nat.succ_le_succ (ih cs' h.2)

/-- A branch match survives appending input on the right. -/
theorem matchPreds_append :
    ∀ (b : List (Char → Bool)) (s t : List Char),
      matchPreds b s = true → matchPreds b (s ++ t) = true := by
  intro b
  induction b with
  | nil => intro s t _; rfl
  | cons p ps ih =>
    intro s t h
    cases s with
    | nil => exact absurd h (by simp [matchPreds])
    | cons c s' =>
      simp only [matchPreds, Bool.and_eq_true, List.cons_append] at *
      exact ⟨h.1, ih s' t h.2⟩

/-- A matching branch already matches the consumed prefix exactly. -/
theorem matchPreds_take :
    ∀ (b : List (Char → Bool)) (cs : List Char),
      matchPreds b cs = true → matchPreds b (cs.take b.length) = true := by
  intro b
  induction b with
  | nil => intro cs _; rfl
  | cons p ps ih =>
    intro cs h
    cases cs with
    | nil => exact absurd h (by simp [matchPreds])
    | cons c cs' =>
      simp only [matchPreds, Bool.and_eq_true, List.length_cons,
        List.take_succ_cons] at *
      exact ⟨h.1, ih cs' h.2⟩

/-- The empty string is not a phone match. -/
theorem phoneFull_nil : phoneFull ([] : List Char) = false := by decide

/-- A successful phone attempt consumes a substring that is, in its
entirety, of the phone shape. -/
theorem phoneMatchAt_sound (cs : List Char) (n : Nat) (h : phoneMatchAt cs = some n) :
    phoneFull (cs.take n) = true := by
  unfold phoneMatchAt at h
  cases hf : phoneBranches.find? (fun b => matchPreds b cs) with
  | none => rw [hf] at h; exact absurd h (by simp)
  | some b =>
    rw [hf] at h
    have hb : matchPreds b cs = true := by
      have h' := List.find?_some hf
      simpa using h'
    have hmem : b ∈ phoneBranches := List.mem_of_find?_eq_some hf
    have hn : n = b.length := by simpa using (Option.some.inj (by simpa using h)).symm
    have hlen : b.length ≤ cs.length := matchPreds_le_length b cs hb
    unfold phoneFull
    rw [List.any_eq_true]
    refine ⟨b, hmem, ?_⟩
    rw [Bool.and_eq_true]
    constructor
    · subst hn
      rw [List.length_take, Nat.min_eq_left hlen]
      simp
    · subst hn
      exact matchPreds_take b cs hb

/-- A failed phone attempt means no prefix of the rest is a phone
match. -/
theorem phoneMatchAt_none (cs : List Char) (h : phoneMatchAt cs = none) :
    ∀ n, phoneFull (cs.take n) = false := by
  intro n
  unfold phoneMatchAt at h
  cases hf : phoneBranches.find? (fun b => matchPreds b cs) with
  | some b => rw [hf] at h; exact absurd h (by simp)
  | none =>
    have hall := List.find?_eq_none.mp hf
    by_contra hc
    have ht : phoneFull (cs.take n) = true := by
      revert hc; cases phoneFull (cs.take n) <;> simp
    unfold phoneFull at ht
    rw [List.any_eq_true] at ht
    obtain ⟨b, hmem, hb⟩ := ht
    rw [Bool.and_eq_true] at hb
    have h2 : matchPreds b cs = true := by
      have hap := matchPreds_append b (cs.take n) (cs.drop n) hb.2
      rwa [List.take_append_drop] at hap
    exact hall b hmem h2

/-! ## `takeWhile` facts used by the email matcher -/

/-- Every element of a `takeWhile` satisfies the predicate. -/
theorem takeWhile_all_sat {α : Type} (p : α → Bool) :
    ∀ l : List α, (l.takeWhile p).all p = true := by
  intro l
  induction l with
  | nil => rfl
  | cons c cs ih =>
    by_cases h : p c = true
    · rw [List.takeWhile_cons_of_pos h, List.all_cons, h, Bool.true_and]; exact ih
    · rw [List.takeWhile_cons_of_neg h]; rfl

/-- Taking the length of the `takeWhile` recovers the `takeWhile`. -/
theorem take_takeWhile_length {α : Type} (p : α → Bool) :
    ∀ l : List α, l.take (l.takeWhile p).length = l.takeWhile p := by
  intro l
  induction l with
  | nil => rfl
  | cons c cs ih =>
    by_cases h : p c = true
    · rw [List.takeWhile_cons_of_pos h, List.length_cons, List.take_succ_cons, ih]
    · rw [List.takeWhile_cons_of_neg h]; rfl

/-- The `takeWhile` is no longer than the list. -/
theorem length_takeWhile_le_len {α : Type} (p : α → Bool) :
    ∀ l : List α, (l.takeWhile p).length ≤ l.length := by
  intro l
  induction l with
  | nil => exact Nat.le_refl _
  | cons c cs ih =>
    by_cases h : p c = true
    · rw [List.takeWhile_cons_of_pos h, List.length_cons, List.length_cons]
      exact Nat.succ_le_succ ih
    · rw [List.takeWhile_cons_of_neg h]
      exact Nat.zero_le _

/-- An all-satisfying taken prefix bounds the `takeWhile` length from
below. -/
theorem min_le_length_takeWhile {α : Type} (p : α → Bool) :
    ∀ (l : List α) (k : Nat),
      (l.take k).all p = true → min k l.length ≤ (l.takeWhile p).length := by
  intro l
  induction l with
  | nil => intro k _; simp
  | cons c cs ih =>
    intro k h
    cases k with
    | zero => simp
    | succ k' =>
      rw [List.take_succ_cons, List.all_cons, Bool.and_eq_true] at h
      rw [List.takeWhile_cons_of_pos h.1, List.length_cons, List.length_cons,
        Nat.succ_min_succ]
      exact Nat.succ_le_succ (ih k' h.2)

/-- The `takeWhile` length is exactly the position of the first
predicate failure. -/
theorem length_takeWhile_eq {α : Type} (p : α → Bool) :
    ∀ (l : List α) (k : Nat) (c : α),
      (l.take k).all p = true → l[k]? = some c → p c = false →
        (l.takeWhile p).length = k := by
  intro l
  induction l with
  | nil => intro k c _ hg _; simp at hg
  | cons a as ih =>
    intro k c hall hg hpc
    cases k with
    | zero =>
      have ha : a = c := by simpa using hg
      rw [List.takeWhile_cons_of_neg (by rw [ha]; simp [hpc])]
      rfl
    | succ k' =>
      rw [List.take_succ_cons, List.all_cons, Bool.and_eq_true] at hall
      have hg' : as[k']? = some c := by simpa using hg
      rw [List.takeWhile_cons_of_pos hall.1, List.length_cons, ih k' c hall.2 hg' hpc]

/-- A taken prefix within the `takeWhile` satisfies the predicate
throughout. -/
theorem all_take_of_le_takeWhile {α : Type} (p : α → Bool) (l : List α) (k : Nat)
    (hk : k ≤ (l.takeWhile p).length) : (l.take k).all p = true := by
  have h1 : (l.takeWhile p).take k = l.take k := by
    conv_lhs => rw [← take_takeWhile_length p l]
    rw [List.take_take, Nat.min_eq_left hk]
  rw [← h1, List.all_eq_true]
  intro x hx
  exact List.all_eq_true.mp (takeWhile_all_sat p l) x (List.mem_of_mem_take hx)

/-! ## The email matcher against its declarative shape -/

/-- Unfolding of `emailDescend` at zero. -/
theorem emailDescend_zero (rest : List Char) : emailDescend rest 0 = none := rfl

/-- Unfolding of `emailDescend` at a successor. -/
theorem emailDescend_succ (rest : List Char) (k : Nat) :
    emailDescend rest (k + 1) =
      (if rest[k + 1]? = some '.' then
        (if 2 ≤ ((rest.drop (k + 2)).takeWhile Char.isAlpha).length then
          some (k + 2 + ((rest.drop (k + 2)).takeWhile Char.isAlpha).length)
        else emailDescend rest k)
      else emailDescend rest k) := rfl

/-- Unfolding of `emailMatchTail` on a nonempty input. -/
theorem emailMatchTail_cons (loclen : Nat) (c : Char) (rest : List Char) :
    emailMatchTail loclen (c :: rest) =
      (if c = '@' then
        (emailDescend rest ((rest.takeWhile isDomChar).length)).map
          (fun k => loclen + 1 + k)
      else none) := rfl

/-- What a successful domain backtracking means: a dot position within
the tried range followed by at least two letters, the consumed length
extending through the maximal letter run. -/
theorem emailDescend_sound (rest : List Char) :
    ∀ (j res : Nat), emailDescend rest j = some res →
      ∃ a, 1 ≤ a ∧ a ≤ j ∧ rest[a]? = some '.' ∧
        2 ≤ ((rest.drop (a + 1)).takeWhile Char.isAlpha).length ∧
        res = a + 1 + ((rest.drop (a + 1)).takeWhile Char.isAlpha).length := by
  intro j
  induction j with
  | zero => intro res h; exact absurd h (by simp [emailDescend_zero])
  | succ k ih =>
    intro res h
    rw [emailDescend_succ] at h
    by_cases hdot : rest[k + 1]? = some '.'
    · rw [if_pos hdot] at h
      by_cases htl : 2 ≤ ((rest.drop (k + 2)).takeWhile Char.isAlpha).length
      · rw [if_pos htl] at h
        refine ⟨k + 1, Nat.succ_le_succ (Nat.zero_le k), Nat.le_refl _, hdot, htl, ?_⟩
        have hres : k + 2 + ((rest.drop (k + 2)).takeWhile Char.isAlpha).length = res :=
          Option.some.inj h
        rw [show k + 1 + 1 = k + 2 from rfl]
        exact hres.symm
      · rw [if_neg htl] at h
        obtain ⟨a, h1, h2, h3, h4, h5⟩ := ih res h
        exact ⟨a, h1, Nat.le_succ_of_le h2, h3, h4, h5⟩
    · rw [if_neg hdot] at h
      obtain ⟨a, h1, h2, h3, h4, h5⟩ := ih res h
      exact ⟨a, h1, Nat.le_succ_of_le h2, h3, h4, h5⟩

/-- The domain backtracking succeeds whenever some dot position in the
tried range is followed by at least two letters. -/
theorem emailDescend_complete (rest : List Char) :
    ∀ (j a : Nat), 1 ≤ a → a ≤ j → rest[a]? = some '.' →
      2 ≤ ((rest.drop (a + 1)).takeWhile Char.isAlpha).length →
      emailDescend rest j ≠ none := by
  intro j
  induction j with
  | zero => intro a h1 h2 _ _; omega
  | succ k ih =>
    intro a h1 h2 hdot htl
    rw [emailDescend_succ]
    by_cases hd : rest[k + 1]? = some '.'
    · rw [if_pos hd]
      by_cases ht : 2 ≤ ((rest.drop (k + 2)).takeWhile Char.isAlpha).length
      · rw [if_pos ht]; simp
      · rw [if_neg ht]
        have ha : a ≤ k := by
          by_cases heq : a = k + 1
          · subst heq
            exact absurd htl (by simpa using ht)
          · omega
        exact ih a h1 ha hdot htl
    · rw [if_neg hd]
      have ha : a ≤ k := by
        by_cases heq : a = k + 1
        · subst heq; exact absurd hdot hd
        · omega
      exact ih a h1 ha hdot htl

/-- A successful email attempt consumes a substring that is, in its
entirety, of the email shape. -/
theorem emailMatchAt_sound (cs : List Char) (n : Nat) (h : emailMatchAt cs = some n) :
    emailFull (cs.take n) = true := by
  unfold emailMatchAt at h
  by_cases hz : (cs.takeWhile isLocalChar).length = 0
  · rw [if_pos hz] at h; exact absurd h (by simp)
  · rw [if_neg hz] at h
    set L := (cs.takeWhile isLocalChar).length with hL
    cases hd : cs.drop L with
    | nil => rw [hd] at h; exact absurd h (by simp [emailMatchTail])
    | cons c rest =>
      rw [hd, emailMatchTail_cons] at h
      by_cases hc : c = '@'
      case neg => rw [if_neg hc] at h; exact absurd h (by simp)
      rw [if_pos hc] at h
      subst hc
      cases hdes : emailDescend rest ((rest.takeWhile isDomChar).length) with
      | none => rw [hdes] at h; exact absurd h (by simp)
      | some res =>
        rw [hdes] at h
        have hn : L + 1 + res = n := by simpa using h
        obtain ⟨a, ha1, ha2, hdot, htl2, hres⟩ :=
          emailDescend_sound rest ((rest.takeWhile isDomChar).length) res hdes
        have hLcs : L ≤ cs.length := hL ▸ length_takeWhile_le_len isLocalChar cs
        have halt : a < rest.length := (List.getElem?_eq_some_iff.mp hdot).1
        have hlle : ((rest.drop (a + 1)).takeWhile Char.isAlpha).length ≤
            rest.length - (a + 1) := by
          have h1 := length_takeWhile_le_len Char.isAlpha (rest.drop (a + 1))
          rwa [List.length_drop] at h1
        have hcslen : cs.length = L + 1 + rest.length := by
          have h1 : (cs.drop L).length = cs.length - L := List.length_drop _ _
          rw [hd] at h1
          simp only [List.length_cons] at h1
          omega
        have hnle : n ≤ cs.length := by omega
        have hLn : L < n := by omega
        have hslen : (cs.take n).length = n := by
          rw [List.length_take, Nat.min_eq_left hnle]
        have hat : cs[L]? = some '@' := by
          have h0 : (cs.drop L)[0]? = some '@' := by rw [hd]; simp
          rw [List.getElem?_drop] at h0
          simpa using h0
        have hrest : cs.drop (L + 1) = rest := by
          have h1 : (cs.drop L).drop 1 = rest := by rw [hd]; rfl
          rwa [List.drop_drop] at h1
        unfold emailFull
        rw [List.any_eq_true]
        refine ⟨L, List.mem_range.mpr (by omega), ?_⟩
        simp only [Bool.and_eq_true]
        have hr : (cs.take n).drop (L + 1) =
            rest.take (a + 1 + ((rest.drop (a + 1)).takeWhile Char.isAlpha).length) := by
          rw [List.drop_take, hrest]
          congr 1
          omega
        refine ⟨⟨⟨?_, ?_⟩, ?_⟩, ?_⟩
        · exact decide_eq_true (by omega)
        · rw [List.getElem?_take_of_lt hLn, hat]
          simp
        · rw [List.take_take, Nat.min_eq_left (Nat.le_of_lt hLn), hL,
            take_takeWhile_length]
          exact takeWhile_all_sat _ _
        · rw [List.any_eq_true]
          refine ⟨a, ?_, ?_⟩
          · rw [List.mem_range, hr, List.length_take,
              Nat.min_eq_left (by omega : a + 1 +
                ((rest.drop (a + 1)).takeWhile Char.isAlpha).length ≤ rest.length)]
            omega
          · simp only [Bool.and_eq_true]
            refine ⟨⟨⟨⟨?_, ?_⟩, ?_⟩, ?_⟩, ?_⟩
            · exact decide_eq_true (by omega)
            · rw [hr, List.getElem?_take_of_lt (by omega), hdot]
              simp
            · rw [hr, List.take_take, Nat.min_eq_left (by omega)]
              exact all_take_of_le_takeWhile isDomChar rest a ha2
            · rw [hr, List.drop_take,
                show a + 1 + ((rest.drop (a + 1)).takeWhile Char.isAlpha).length - (a + 1) =
                  ((rest.drop (a + 1)).takeWhile Char.isAlpha).length from by omega,
                take_takeWhile_length]
              exact takeWhile_all_sat _ _
            · rw [hr, List.drop_take,
                show a + 1 + ((rest.drop (a + 1)).takeWhile Char.isAlpha).length - (a + 1) =
                  ((rest.drop (a + 1)).takeWhile Char.isAlpha).length from by omega]
              refine decide_eq_true ?_
              rw [List.length_take,
                Nat.min_eq_left (length_takeWhile_le_len Char.isAlpha (rest.drop (a + 1)))]
              exact htl2

/-- A failed email attempt means no prefix of the rest is an email
match. -/
theorem emailMatchAt_none (cs : List Char) (h : emailMatchAt cs = none) :
    ∀ n, emailFull (cs.take n) = false := by
  intro n
  by_contra hc
  have ht : emailFull (cs.take n) = true := by
    revert hc; cases emailFull (cs.take n) <;> simp
  unfold emailFull at ht
  rw [List.any_eq_true] at ht
  obtain ⟨i, hir, hbody⟩ := ht
  simp only [Bool.and_eq_true] at hbody
  obtain ⟨⟨⟨h0i, hat⟩, hloc⟩, hinner⟩ := hbody
  rw [List.any_eq_true] at hinner
  obtain ⟨k, hkr, hkbody⟩ := hinner
  simp only [Bool.and_eq_true] at hkbody
  obtain ⟨⟨⟨⟨h0k, hkdot⟩, hkdom⟩, hkalpha⟩, hklen⟩ := hkbody
  have h0i' : 0 < i := of_decide_eq_true h0i
  have h0k' : 0 < k := of_decide_eq_true h0k
  have hklen' : 2 ≤ (((cs.take n).drop (i + 1)).drop (k + 1)).length :=
    of_decide_eq_true hklen
  have hat' : (cs.take n)[i]? = some '@' := by rwa [beq_iff_eq] at hat
  have hkdot' : ((cs.take n).drop (i + 1))[k]? = some '.' := by rwa [beq_iff_eq] at hkdot
  have his : i < (cs.take n).length := (List.getElem?_eq_some_iff.mp hat').1
  have hin : i < n := by
    rw [List.length_take] at his
    exact (lt_min_iff.mp his).1
  have hics : i < cs.length := by
    rw [List.length_take] at his
    exact (lt_min_iff.mp his).2
  have hati : cs[i]? = some '@' := by rwa [List.getElem?_take_of_lt hin] at hat'
  have hloci : (cs.take i).all isLocalChar = true := by
    rwa [List.take_take, Nat.min_eq_left (Nat.le_of_lt hin)] at hloc
  have hLi : (cs.takeWhile isLocalChar).length = i :=
    length_takeWhile_eq isLocalChar cs i '@' hloci hati (by decide)
  unfold emailMatchAt at h
  rw [hLi, if_neg (by omega)] at h
  have hdeq : cs.drop i = '@' :: cs.drop (i + 1) := by
    obtain ⟨hlt, hgeq⟩ := List.getElem?_eq_some_iff.mp hati
    rw [List.drop_eq_getElem_cons hlt, hgeq]
  rw [hdeq, emailMatchTail_cons, if_pos rfl] at h
  have hdes : emailDescend (cs.drop (i + 1))
      (((cs.drop (i + 1)).takeWhile isDomChar).length) = none := by
    cases hh : emailDescend (cs.drop (i + 1))
        (((cs.drop (i + 1)).takeWhile isDomChar).length) with
    | none => rfl
    | some r => rw [hh] at h; simp at h
  have hreq : (cs.take n).drop (i + 1) = (cs.drop (i + 1)).take (n - (i + 1)) :=
    List.drop_take _ _ _
  have hkr' : k < ((cs.take n).drop (i + 1)).length :=
    (List.getElem?_eq_some_iff.mp hkdot').1
  have hklt : k < n - (i + 1) := by
    rw [hreq, List.length_take] at hkr'
    exact (lt_min_iff.mp hkr').1
  have hkdotr : (cs.drop (i + 1))[k]? = some '.' := by
    rwa [hreq, List.getElem?_take_of_lt hklt] at hkdot'
  have hkdomr : ((cs.drop (i + 1)).take k).all isDomChar = true := by
    rwa [hreq, List.take_take, Nat.min_eq_left (Nat.le_of_lt hklt)] at hkdom
  have hkm : k ≤ ((cs.drop (i + 1)).takeWhile isDomChar).length := by
    have hmin := min_le_length_takeWhile isDomChar (cs.drop (i + 1)) k hkdomr
    have hklen2 : k < (cs.drop (i + 1)).length := (List.getElem?_eq_some_iff.mp hkdotr).1
    rwa [Nat.min_eq_left (Nat.le_of_lt hklen2)] at hmin
  have htail : 2 ≤ (((cs.drop (i + 1)).drop (k + 1)).takeWhile Char.isAlpha).length := by
    have hteq : ((cs.take n).drop (i + 1)).drop (k + 1) =
        ((cs.drop (i + 1)).drop (k + 1)).take (n - (i + 1) - (k + 1)) := by
      rw [hreq, List.drop_take]
    have halpha : (((cs.drop (i + 1)).drop (k + 1)).take
        (n - (i + 1) - (k + 1))).all Char.isAlpha = true := by
      rw [← hteq]; exact hkalpha
    have hmin2 := min_le_length_takeWhile Char.isAlpha
      ((cs.drop (i + 1)).drop (k + 1)) (n - (i + 1) - (k + 1)) halpha
    rw [hteq, List.length_take] at hklen'
    exact le_trans hklen' hmin2
  exact emailDescend_complete (cs.drop (i + 1)) _ k h0k' hkm hkdotr htail hdes

/-- The empty string is not an email match. -/
theorem emailFull_nil : emailFull ([] : List Char) = false := rfl

/-- Leftmost-first-match specification of `re.search`-based extraction:
an empty result means no substring matches, and a nonempty result is a
matching substring starting at the leftmost matchable position. -/
theorem search_spec (m : List Char → Option Nat) (full : List Char → Bool)
    (hsound : ∀ cs j, m cs = some j → full (cs.take j) = true)
    (hnone : ∀ cs, m cs = none → ∀ j, full (cs.take j) = false)
    (hnil : full [] = false) (t : List Char) :
    (extractRes m t = "" → ∀ i j, full ((t.drop i).take j) = false) ∧
    (extractRes m t ≠ "" → ∃ i j, extractRes m t = String.mk ((t.drop i).take j) ∧
      full ((t.drop i).take j) = true ∧
      ∀ i2, i2 < i → ∀ j2, full ((t.drop i2).take j2) = false) := by
  constructor
  · intro he i j
    cases hr : reSearch m t with
    | none => exact hnone _ (reSearch_eq_none m t hr i) j
    | some mtext =>
      exfalso
      obtain ⟨i', j', h1, h2, h3⟩ := reSearch_eq_some m t mtext hr
      have hdata : mtext = [] := by
        have hmk : String.mk mtext = "" := by
          rw [← he]; unfold extractRes; rw [hr]
        have hdd := congrArg String.data hmk
        simpa using hdd
      have htrue : full mtext = true := by rw [h2]; exact hsound _ _ h1
      rw [hdata, hnil] at htrue
      exact Bool.false_ne_true htrue
  · intro hne
    cases hr : reSearch m t with
    | none =>
      exfalso
      apply hne
      unfold extractRes
      rw [hr]
    | some mtext =>
      obtain ⟨i, j, h1, h2, h3⟩ := reSearch_eq_some m t mtext hr
      refine ⟨i, j, ?_, h2 ▸ hsound _ _ h1, fun i2 hi2 j2 => hnone _ (h3 i2 hi2) j2⟩
      unfold extractRes
      rw [hr, h2]

/-! ## Claim theorem C6 -/

/-- C6: the phone extractor scans the page's full visible text and
returns the first (leftmost) substring wholly matching the phone
pattern — optional parenthesised 3-digit group, 3-digit group, 4-digit
group with optional single separators — and the email extractor likewise
returns the first substring of the local-part `@` domain shape with a
final label of at least two letters; each returns the empty string
exactly when no such substring exists (and, being total functions, they
never raise). -/
theorem c6_phone_email_first_match (soup : Node) :
    ((extract_phone soup = "" →
        ∀ i j, phoneFull (((Node.allText soup).data.drop i).take j) = false) ∧
      (extract_phone soup ≠ "" → ∃ i j,
        extract_phone soup = String.mk (((Node.allText soup).data.drop i).take j) ∧
        phoneFull (((Node.allText soup).data.drop i).take j) = true ∧
        ∀ i2, i2 < i → ∀ j2,
          phoneFull (((Node.allText soup).data.drop i2).take j2) = false)) ∧
    ((extract_email soup = "" →
        ∀ i j, emailFull (((Node.allText soup).data.drop i).take j) = false) ∧
      (extract_email soup ≠ "" → ∃ i j,
        extract_email soup = String.mk (((Node.allText soup).data.drop i).take j) ∧
        emailFull (((Node.allText soup).data.drop i).take j) = true ∧
        ∀ i2, i2 < i → ∀ j2,
          emailFull (((Node.allText soup).data.drop i2).take j2) = false)) :=
  ⟨search_spec phoneMatchAt phoneFull phoneMatchAt_sound phoneMatchAt_none phoneFull_nil
      (Node.allText soup).data,
    search_spec emailMatchAt emailFull emailMatchAt_sound emailMatchAt_none emailFull_nil
      (Node.allText soup).data⟩

/-- A page whose text contains both a phone number and an email
address. -/
def c6Page : Node :=
  .elem "html" [] [.text "Call (203) 555-1234 or a.b@c-d.co.uk now"]

/-- A page whose text contains neither. -/
def c6EmptyPage : Node := .elem "html" [] [.text "nothing to see 12-34"]

/-- C6, witness: on the concrete page the extractors return the expected
first matches, which are matching substrings at the leftmost matchable
position; on a page without matches both return the empty string and no
substring matches. -/
theorem c6_phone_email_first_match_witness :
    extract_phone c6Page = "(203) 555-1234" ∧
      extract_email c6Page = "a.b@c-d.co.uk" ∧
      (∃ i j, extract_phone c6Page =
          String.mk (((Node.allText c6Page).data.drop i).take j) ∧
        phoneFull (((Node.allText c6Page).data.drop i).take j) = true ∧
        ∀ i2, i2 < i → ∀ j2,
          phoneFull (((Node.allText c6Page).data.drop i2).take j2) = false) ∧
      (∃ i j, extract_email c6Page =
          String.mk (((Node.allText c6Page).data.drop i).take j) ∧
        emailFull (((Node.allText c6Page).data.drop i).take j) = true ∧
        ∀ i2, i2 < i → ∀ j2,
          emailFull (((Node.allText c6Page).data.drop i2).take j2) = false) ∧
      ∀ i j, phoneFull (((Node.allText c6EmptyPage).data.drop i).take j) = false :=
  ⟨by decide, by decide,
    (c6_phone_email_first_match c6Page).1.2 (by decide),
    (c6_phone_email_first_match c6Page).2.2 (by decide),
    (c6_phone_email_first_match c6EmptyPage).1.1 (by decide)⟩

/-! ## Claim theorems C5 and C7 -/

/-- The ancestor element of the counterexample page. -/
def c5Div : Node := .elem "div" [] [.text "About Us ", .elem "b" [] [.text "info"]]

/-- A page whose "About Us" text node sits beside a nested element. -/
def c5Page : Node := .elem "html" [] [c5Div]

/-- C5, counterexample: the source stores `get_text(strip=True)` of the
ancestor — each fragment stripped individually and concatenated with no
separator — not the trimmed visible text: on a `div` holding the text
`"About Us "` followed by `<b>info</b>` it stores `"About Usinfo"`,
while the trimmed visible text is `"About Us info"`. -/
theorem c5_counterexample :
    description_stored c5Page = "About Usinfo" ∧
      specDescription c5Page = "About Us info" ∧
      description_stored c5Page ≠ specDescription c5Page := by
  decide

/-- C5 (amended): the stored description is the concatenation of the
individually stripped text fragments (`get_text(strip=True)`) of the
nearest structural ancestor of the first case-insensitive "About Us"
text node, truncated to at most 200 characters; it is empty when no such
occurrence exists, and its length never exceeds 200. -/
theorem c5_description_amended (soup : Node) :
    (Node.findStrParent aboutPred soup = none → description_stored soup = "") ∧
    (∀ p, Node.findStrParent aboutPred soup = some p →
      description_stored soup =
        (if Node.getTextStrip p ≠ "" then pyTruncate (Node.getTextStrip p) 200 else "")) ∧
    (description_stored soup).length ≤ 200 := by
  refine ⟨fun hn => ?_, fun p hp => ?_, ?_⟩
  · simp [description_stored, rawDescription, hn]
  · simp only [description_stored, rawDescription, hp]
  · by_cases hr : rawDescription soup = ""
    · simp [description_stored, hr]
    · have e : description_stored soup = pyTruncate (rawDescription soup) 200 := by
        simp [description_stored, hr]
      rw [e]
      show ((rawDescription soup).data.take 200).length ≤ 200
      rw [List.length_take]
      exact min_le_left _ _

/-- C5, witness: the amended description evaluates on the concrete page
to the stripped-and-concatenated ancestor text. -/
theorem c5_description_amended_witness : description_stored c5Page = "About Usinfo" :=
  ((c5_description_amended c5Page).2.1 c5Div (by rfl)).trans (by decide)

/-- The loop of `extract_address` returns the first fragment accepted by
the address pattern, defaulting to the empty string. -/
theorem addrLoop_eq_find (l : List String) :
    addrLoop l = (l.find? addrSearch).getD "" := by
  induction l with
  | nil => rfl
  | cons t rest ih =>
    by_cases ht : addrSearch t = true
    · simp [addrLoop, ht, List.find?_cons_of_pos _ ht]
    · have ht' : addrSearch t = false := by revert ht; cases addrSearch t <;> simp
      rw [List.find?_cons_of_neg _ (by simp [ht'])] at *
      simp [addrLoop, ht', ih]

/-- C7: the address extractor walks the page's stripped text fragments
in document order and returns the first fragment containing a match of
`\d+\s+\w+.*,\s*CT\s*\d{5}`, or the empty string when no fragment
matches. -/
theorem c7_first_matching_fragment (soup : Node) :
    extract_address soup = ((Node.strippedStrings soup).find? addrSearch).getD "" ∧
    ((∀ t ∈ Node.strippedStrings soup, addrSearch t = false) →
      extract_address soup = "") := by
  refine ⟨addrLoop_eq_find _, fun h => ?_⟩
  have : (Node.strippedStrings soup).find? addrSearch = none :=
    List.find?_eq_none.mpr (fun x hx => by rw [h x hx]; simp)
  rw [show extract_address soup = ((Node.strippedStrings soup).find? addrSearch).getD ""
    from addrLoop_eq_find _, this]
  rfl

/-- A page with a non-address fragment before an address fragment. -/
def c7Page : Node :=
  .elem "div" [] [.text " hello there ", .text " 12 Main St, CT 06475 ", .text "x"]

/-- A page with no address-shaped fragment. -/
def c7NoAddrPage : Node := .elem "div" [] [.text "no address here"]

/-- C7, witness: on the concrete pages the extractor returns the first
matching stripped fragment, and the empty string when nothing matches. -/
theorem c7_first_matching_fragment_witness :
    extract_address c7Page = ((Node.strippedStrings c7Page).find? addrSearch).getD "" ∧
      extract_address c7NoAddrPage = "" ∧
      extract_address c7Page = "12 Main St, CT 06475" :=
  ⟨(c7_first_matching_fragment c7Page).1,
    (c7_first_matching_fragment c7NoAddrPage).2 (by decide), by decide⟩

/-! ## Claim theorem C3 -/

/-- C3: a business page whose fetch or parse fails contributes nothing —
the record collection is returned unchanged, with no partial record —
and the category loop then continues with the remaining links exactly as
if the failed link were absent. -/
theorem c3_failed_business_skipped (fetch : String → Except String Node)
    (resolve : String → String → String) (today curl ch cat : String)
    (businesses : List BusinessData) (e : String) :
    (∀ url, fetch url = .error e →
      scrape_business fetch today url ch cat businesses = businesses) ∧
    (∀ href txt rest, fetch (resolve curl href) = .error e →
      processBusinessLinks fetch resolve today curl ch cat ((href, txt) :: rest) businesses =
        processBusinessLinks fetch resolve today curl ch cat rest businesses) := by
  constructor
  · intro url hf
    unfold scrape_business
    rw [hf]
  · intro href txt rest hf
    simp only [processBusinessLinks]
    unfold scrape_business
    rw [hf]

/-- A fetch oracle on which every request fails. -/
def fetch404 : String → Except String Node := fun _ => .error "404"

/-- `urljoin` collaborator for the concrete scenarios (path-append). -/
def demoResolve : String → String → String := fun base href => base ++ href

/-- C3, witness: under an always-failing fetch a business page adds no
record to a nonempty collection, and a category loop over a failing link
continues with the rest of its links. -/
theorem c3_failed_business_skipped_witness :
    scrape_business fetch404 "2025-10-12" "https://biz" "Ch" "Cat" [sampleRecord] =
        [sampleRecord] ∧
      processBusinessLinks fetch404 demoResolve "2025-10-12" "https://cat" "Ch" "Cat"
          [("/list/member/b1", "t")] [sampleRecord] =
        processBusinessLinks fetch404 demoResolve "2025-10-12" "https://cat" "Ch" "Cat"
          [] [sampleRecord] :=
  ⟨(c3_failed_business_skipped fetch404 demoResolve "2025-10-12" "https://cat" "Ch" "Cat"
      [sampleRecord] "404").1 "https://biz" rfl,
    (c3_failed_business_skipped fetch404 demoResolve "2025-10-12" "https://cat" "Ch" "Cat"
      [sampleRecord] "404").2 "/list/member/b1" "t" [] rfl⟩

/-! ## Claim theorem C8 -/

/-- C8: on a successfully fetched listing page the downstream handler is
driven by exactly the hyperlinks matching the fixed path pattern, in
document order — the appended records decompose as one contribution per
matching link (`/list/member/` at category scope, `/list/ql/` at chamber
scope) and non-matching links contribute no invocation; a chamber root
page with zero category links leaves the collection unchanged. -/
theorem c8_pattern_links_drive_handlers (fetch : String → Except String Node)
    (resolve : String → String → String) (today ch : String)
    (businesses : List BusinessData) :
    (∀ curl cat soup, fetch curl = .ok soup →
      scrape_category fetch resolve today curl ch cat businesses =
        businesses ++ (businessLinks soup).flatMap
          (businessRecordsOf fetch resolve today curl ch cat)) ∧
    (∀ base soup, fetch base = .ok soup →
      scrape_chamber_list fetch resolve today base ch businesses =
        businesses ++ (categoryLinks soup).flatMap
          (categoryRecordsOf fetch resolve today base ch)) ∧
    (∀ base soup, fetch base = .ok soup → categoryLinks soup = [] →
      scrape_chamber_list fetch resolve today base ch businesses = businesses) := by
  refine ⟨fun curl cat soup hf => scrape_category_ok fetch resolve today curl ch cat
    businesses soup hf, fun base soup hf => ?_, fun base soup hf hz => ?_⟩
  · unfold scrape_chamber_list
    rw [hf]
    exact processCategoryLinks_eq_flatMap fetch resolve today base ch _ businesses
  · unfold scrape_chamber_list
    rw [hf]
    show processCategoryLinks fetch resolve today base ch (categoryLinks soup) businesses =
      businesses
    rw [hz]
    rfl

/-- A category page with three hyperlinks of which exactly one matches
the business-detail pattern. -/
def catPage : Node :=
  .elem "html" []
    [.elem "a" [("href", "/foo")] [.text "Foo"],
     .elem "a" [("href", "/list/member/biz1")] [.text "Biz One"],
     .elem "a" [("href", "/about.html")] [.text "About"]]

/-- The business page behind the one matching link. -/
def bizPage : Node :=
  .elem "html" []
    [.elem "h1" [] [.text "Biz One"],
     .text "Call (203) 555-1234",
     .elem "a" [("href", "https://bizone.example")] []]

/-- A chamber root page with no category links. -/
def emptyChamberPage : Node :=
  .elem "html" [] [.elem "a" [("href", "/nothing")] [.text "x"]]

/-- The fetch oracle of the concrete scenario. -/
def demoFetch : String → Except String Node := fun u =>
  if u = "https://cat" then .ok catPage
  else if u = "https://cat/list/member/biz1" then .ok bizPage
  else if u = "https://chamber" then .ok emptyChamberPage
  else .error "404"

/-- C8, witness: on the three-link category page the business handler
runs exactly once (the lone matching link), producing exactly one
record; the chamber root page with zero category links produces zero
records. -/
theorem c8_pattern_links_drive_handlers_witness :
    scrape_category demoFetch demoResolve "2025-10-12" "https://cat" "Ch" "Cat" [] =
        [] ++ (businessLinks catPage).flatMap
          (businessRecordsOf demoFetch demoResolve "2025-10-12" "https://cat" "Ch" "Cat") ∧
      scrape_chamber_list demoFetch demoResolve "2025-10-12" "https://chamber" "Ch" [] = [] ∧
      (businessLinks catPage).map Prod.fst = ["/list/member/biz1"] ∧
      (businessLinks catPage).flatMap
          (businessRecordsOf demoFetch demoResolve "2025-10-12" "https://cat" "Ch" "Cat") =
        [mkBusinessData bizPage "https://cat/list/member/biz1" "Ch" "Cat" "2025-10-12"] :=
  ⟨(c8_pattern_links_drive_handlers demoFetch demoResolve "2025-10-12" "Ch" []).1
      "https://cat" "Cat" catPage (by rfl),
    (c8_pattern_links_drive_handlers demoFetch demoResolve "2025-10-12" "Ch" []).2.2
      "https://chamber" emptyChamberPage (by rfl) (by rfl),
    by decide, by rfl⟩

end ChamberScraper
